import Mathlib

/-!
Verification of the RISC Sim by Rashid repository: an educational RV32I
assembler and instruction-set simulator driven by a Streamlit control panel
(`app.py`).  The UI module `app.py` imports three collaborating modules
(`riscv_core`, `assembler`, `riscv_defs`) that are not part of the visible
sources; those are modelled here from the specification, faithful to its
words, while the session-state handling of `app.py` is embedded from the
source directly.
-/

namespace RiscSim

/-! ### Machine-arithmetic helpers (32-bit two's complement over Int/Nat) -/

/-- Size of the byte-addressable memory image: fixed, zero-initialized,
large enough for instructions at low addresses, a stack, and a data region
at byte 512 sized at least 256 bytes. -/
def MEMSIZE : Nat := 1024

/-- Cycle ceiling guaranteeing termination of `run`. -/
def CEILING : Nat := 5000

/-- Wrap an integer into signed 32-bit two's-complement range. -/
def wrap32 (x : Int) : Int := (x + 2147483648) % 4294967296 - 2147483648

/-- Unsigned 32-bit view of a signed value. -/
def toU32 (x : Int) : Nat := (x % 4294967296).toNat

/-- Signed view of an unsigned 32-bit value. -/
def fromU32 (n : Nat) : Int := if n < 2147483648 then (n : Int) else (n : Int) - 4294967296

/-- Sign extension of an 8-bit byte. -/
def sext8 (n : Nat) : Int := if n < 128 then (n : Int) else (n : Int) - 256

/-- Sign extension of a 16-bit halfword. -/
def sext16 (n : Nat) : Int := if n < 32768 then (n : Int) else (n : Int) - 65536

/-- Sign extension of a 12-bit immediate field. -/
def sext12 (n : Nat) : Int := if n < 2048 then (n : Int) else (n : Int) - 4096

/-- Sign extension of a 13-bit branch displacement. -/
def sext13 (n : Nat) : Int := if n < 4096 then (n : Int) else (n : Int) - 8192

/-- Sign extension of a 21-bit jump displacement. -/
def sext21 (n : Nat) : Int := if n < 1048576 then (n : Int) else (n : Int) - 2097152

/-! ### ISA definitions: the instruction variants and the decoder.

Modelled from the spec: the `riscv_defs` module (opcode/field tables and the
decoder for the 37 RV32I base instructions) is not among the visible sources;
it is reconstructed from the specification's ISA description and the standard
RV32I bit layout the specification mandates. -/

inductive ROp where
  | add | sub | sll | slt | sltu | xor | srl | sra | or | and
deriving DecidableEq, Repr

inductive IOp where
  | addi | slti | sltiu | xori | ori | andi
deriving DecidableEq, Repr

inductive ShOp where
  | slli | srli | srai
deriving DecidableEq, Repr

inductive LoadOp where
  | lb | lh | lw | lbu | lhu
deriving DecidableEq, Repr

inductive StoreOp where
  | sb | sh | sw
deriving DecidableEq, Repr

inductive BrOp where
  | beq | bne | blt | bge | bltu | bgeu
deriving DecidableEq, Repr

/-- Intermediate instruction form: tagged variant over the RV32I formats,
carrying the operand fields relevant to its encoding. -/
inductive Instr where
  | rop (f : ROp) (rd rs1 rs2 : Nat)
  | iop (f : IOp) (rd rs1 : Nat) (imm : Int)
  | shift (f : ShOp) (rd rs1 sh : Nat)
  | load (f : LoadOp) (rd rs1 : Nat) (imm : Int)
  | store (f : StoreOp) (rs2 rs1 : Nat) (imm : Int)
  | branch (f : BrOp) (rs1 rs2 : Nat) (imm : Int)
  | jal (rd : Nat) (imm : Int)
  | jalr (rd rs1 : Nat) (imm : Int)
  | lui (rd : Nat) (imm20 : Nat)
  | auipc (rd : Nat) (imm20 : Nat)
deriving DecidableEq, Repr

/-- Decode a 32-bit word into an instruction variant; `none` when the word
does not match any known opcode pattern. -/
def decode (w0 : Nat) : Option Instr :=
  let w := w0 % 4294967296
  let opcode := w % 128
  let rd := w / 128 % 32
  let f3 := w / 4096 % 8
  let rs1 := w / 32768 % 32
  let rs2 := w / 1048576 % 32
  let f7 := w / 33554432 % 128
  let immI := sext12 (w / 1048576 % 4096)
  let immS := sext12 ((w / 33554432 % 128) * 32 + rd)
  let immB := sext13 ((w / 2147483648) * 4096 + (w / 128 % 2) * 2048 +
                      (w / 33554432 % 64) * 32 + (w / 256 % 16) * 2)
  let immJ := sext21 ((w / 2147483648) * 1048576 + (w / 4096 % 256) * 4096 +
                      (w / 1048576 % 2) * 2048 + (w / 2097152 % 1024) * 2)
  let immU := w / 4096
  if opcode = 51 then
    match f3, f7 with
    | 0, 0 => some (.rop .add rd rs1 rs2)
    | 0, 32 => some (.rop .sub rd rs1 rs2)
    | 1, 0 => some (.rop .sll rd rs1 rs2)
    | 2, 0 => some (.rop .slt rd rs1 rs2)
    | 3, 0 => some (.rop .sltu rd rs1 rs2)
    | 4, 0 => some (.rop .xor rd rs1 rs2)
    | 5, 0 => some (.rop .srl rd rs1 rs2)
    | 5, 32 => some (.rop .sra rd rs1 rs2)
    | 6, 0 => some (.rop .or rd rs1 rs2)
    | 7, 0 => some (.rop .and rd rs1 rs2)
    | _, _ => none
  else if opcode = 19 then
    match f3 with
    | 0 => some (.iop .addi rd rs1 immI)
    | 2 => some (.iop .slti rd rs1 immI)
    | 3 => some (.iop .sltiu rd rs1 immI)
    | 4 => some (.iop .xori rd rs1 immI)
    | 6 => some (.iop .ori rd rs1 immI)
    | 7 => some (.iop .andi rd rs1 immI)
    | 1 => if f7 = 0 then some (.shift .slli rd rs1 (w / 1048576 % 32)) else none
    | 5 =>
      if f7 = 0 then some (.shift .srli rd rs1 (w / 1048576 % 32))
      else if f7 = 32 then some (.shift .srai rd rs1 (w / 1048576 % 32))
      else none
    | _ => none
  else if opcode = 3 then
    match f3 with
    | 0 => some (.load .lb rd rs1 immI)
    | 1 => some (.load .lh rd rs1 immI)
    | 2 => some (.load .lw rd rs1 immI)
    | 4 => some (.load .lbu rd rs1 immI)
    | 5 => some (.load .lhu rd rs1 immI)
    | _ => none
  else if opcode = 35 then
    match f3 with
    | 0 => some (.store .sb rs2 rs1 immS)
    | 1 => some (.store .sh rs2 rs1 immS)
    | 2 => some (.store .sw rs2 rs1 immS)
    | _ => none
  else if opcode = 99 then
    match f3 with
    | 0 => some (.branch .beq rs1 rs2 immB)
    | 1 => some (.branch .bne rs1 rs2 immB)
    | 4 => some (.branch .blt rs1 rs2 immB)
    | 5 => some (.branch .bge rs1 rs2 immB)
    | 6 => some (.branch .bltu rs1 rs2 immB)
    | 7 => some (.branch .bgeu rs1 rs2 immB)
    | _ => none
  else if opcode = 111 then some (.jal rd immJ)
  else if opcode = 103 then
    if f3 = 0 then some (.jalr rd rs1 immI) else none
  else if opcode = 55 then some (.lui rd immU)
  else if opcode = 23 then some (.auipc rd immU)
  else none

/-! ### CPU core.

Modelled from the spec: the `riscv_core` module (class `RiscVCore` with
`load_program`, `step`, `run`, `reset`, and fields `regs`, `mem`, `pc`,
`cycles`) is not among the visible sources; it is reconstructed from the
specification of the CPU Core component. -/

/-- The CPU core: 32 signed 32-bit registers, byte memory, program counter,
cycle counter. -/
structure RiscVCore where
  regs : List Int
  mem : List Nat
  pc : Nat
  cycles : Nat
deriving DecidableEq, Repr

/-- Core construction: zero-initialized register file and memory. -/
def initCore : RiscVCore :=
  { regs := List.replicate 32 0, mem := List.replicate MEMSIZE 0, pc := 0, cycles := 0 }

/-- `reset()`: zeroes all registers and the entire memory image, sets PC and
cycle counter to 0. -/
def RiscVCore.reset (_ : RiscVCore) : RiscVCore := initCore

/-- Little-endian byte quadruple of a 32-bit word. -/
def wordBytes (w : Nat) : List Nat :=
  [w % 256, w / 256 % 256, w / 65536 % 256, w / 16777216 % 256]

/-- `load_program(words)`: resets core state, then writes the words into
memory starting at address 0, 4 bytes each, little-endian; PC and cycle
counter are 0. -/
def RiscVCore.load_program (_ : RiscVCore) (ws : List Nat) : RiscVCore :=
  { regs := List.replicate 32 0,
    mem := (ws.flatMap wordBytes) ++ List.replicate (MEMSIZE - 4 * ws.length) 0,
    pc := 0, cycles := 0 }

/-- Register read (x0 reads as whatever is stored there; the write path keeps
it at 0). -/
def readReg (c : RiscVCore) (i : Nat) : Int := c.regs.getD i 0

/-- Register write: a write to register index 0 is discarded. -/
def writeReg (rs : List Int) (i : Nat) (v : Int) : List Int :=
  if i = 0 then rs else rs.set i v

/-- Memory byte read (0 beyond the image, matching zero-initialized memory). -/
def readByte (m : List Nat) (a : Nat) : Nat := m.getD a 0

/-- Little-endian word read. -/
def readWordLE (m : List Nat) (a : Nat) : Nat :=
  readByte m a + 256 * readByte m (a + 1) + 65536 * readByte m (a + 2) +
    16777216 * readByte m (a + 3)

/-- Execute one decoded instruction: register/memory side effects per RV32I
semantics, PC advances by 4 unless a taken branch or jump overrides it.
The cycle counter is handled by `step`. -/
def execInstr (c : RiscVCore) : Instr → RiscVCore
  | .rop f rd rs1 rs2 =>
    let a := readReg c rs1
    let b := readReg c rs2
    let v : Int :=
      match f with
      | .add => wrap32 (a + b)
      | .sub => wrap32 (a - b)
      | .sll => fromU32 (toU32 a * 2 ^ (toU32 b % 32) % 4294967296)
      | .slt => if a < b then 1 else 0
      | .sltu => if toU32 a < toU32 b then 1 else 0
      | .xor => fromU32 (Nat.xor (toU32 a) (toU32 b))
      | .srl => fromU32 (toU32 a / 2 ^ (toU32 b % 32))
      | .sra => wrap32 (Int.fdiv a (2 ^ (toU32 b % 32)))
      | .or => fromU32 (Nat.lor (toU32 a) (toU32 b))
      | .and => fromU32 (Nat.land (toU32 a) (toU32 b))
    { c with regs := writeReg c.regs rd v, pc := c.pc + 4 }
  | .iop f rd rs1 imm =>
    let a := readReg c rs1
    let v : Int :=
      match f with
      | .addi => wrap32 (a + imm)
      | .slti => if a < imm then 1 else 0
      | .sltiu => if toU32 a < toU32 imm then 1 else 0
      | .xori => fromU32 (Nat.xor (toU32 a) (toU32 imm))
      | .ori => fromU32 (Nat.lor (toU32 a) (toU32 imm))
      | .andi => fromU32 (Nat.land (toU32 a) (toU32 imm))
    { c with regs := writeReg c.regs rd v, pc := c.pc + 4 }
  | .shift f rd rs1 sh =>
    let a := readReg c rs1
    let v : Int :=
      match f with
      | .slli => fromU32 (toU32 a * 2 ^ (sh % 32) % 4294967296)
      | .srli => fromU32 (toU32 a / 2 ^ (sh % 32))
      | .srai => wrap32 (Int.fdiv a (2 ^ (sh % 32)))
    { c with regs := writeReg c.regs rd v, pc := c.pc + 4 }
  | .load f rd rs1 imm =>
    let a := toU32 (readReg c rs1 + imm)
    let v : Int :=
      match f with
      | .lb => sext8 (readByte c.mem a)
      | .lh => sext16 (readByte c.mem a + 256 * readByte c.mem (a + 1))
      | .lw => fromU32 (readWordLE c.mem a)
      | .lbu => (readByte c.mem a : Int)
      | .lhu => (readByte c.mem a + 256 * readByte c.mem (a + 1) : Int)
    { c with regs := writeReg c.regs rd v, pc := c.pc + 4 }
  | .store f rs2 rs1 imm =>
    let a := toU32 (readReg c rs1 + imm)
    let v := toU32 (readReg c rs2)
    let m :=
      match f with
      | .sb => c.mem.set a (v % 256)
      | .sh => (c.mem.set a (v % 256)).set (a + 1) (v / 256 % 256)
      | .sw => (((c.mem.set a (v % 256)).set (a + 1) (v / 256 % 256)).set
                  (a + 2) (v / 65536 % 256)).set (a + 3) (v / 16777216 % 256)
    { c with mem := m, pc := c.pc + 4 }
  | .branch f rs1 rs2 imm =>
    let a := readReg c rs1
    let b := readReg c rs2
    let taken : Bool :=
      match f with
      | .beq => a = b
      | .bne => a ≠ b
      | .blt => a < b
      | .bge => b ≤ a
      | .bltu => toU32 a < toU32 b
      | .bgeu => toU32 b ≤ toU32 a
    if taken then { c with pc := toU32 ((c.pc : Int) + imm) }
    else { c with pc := c.pc + 4 }
  | .jal rd imm =>
    { c with regs := writeReg c.regs rd (wrap32 ((c.pc : Int) + 4)),
             pc := toU32 ((c.pc : Int) + imm) }
  | .jalr rd rs1 imm =>
    let t := toU32 (readReg c rs1 + imm)
    { c with regs := writeReg c.regs rd (wrap32 ((c.pc : Int) + 4)),
             pc := t - t % 2 }
  | .lui rd imm20 =>
    { c with regs := writeReg c.regs rd (fromU32 (imm20 * 4096 % 4294967296)),
             pc := c.pc + 4 }
  | .auipc rd imm20 =>
    { c with regs := writeReg c.regs rd (fromU32 ((c.pc + imm20 * 4096) % 4294967296)),
             pc := c.pc + 4 }

/-- Fetch the 4-byte little-endian word at `[PC, PC+4)`. -/
def fetchWord (c : RiscVCore) : Nat := readWordLE c.mem c.pc

/-- `step()`: no-op once the cycle ceiling is reached; otherwise fetch,
decode and execute (a decode failure is a no-op that still advances PC by 4),
and increment the cycle counter by 1. -/
def RiscVCore.step (c : RiscVCore) : RiscVCore :=
  if c.cycles < CEILING then
    let c' :=
      match decode (fetchWord c) with
      | none => { c with pc := c.pc + 4 }
      | some i => execInstr c i
    { c' with cycles := c.cycles + 1 }
  else c

/-- Iterated `step`. -/
def stepN : Nat → RiscVCore → RiscVCore
  | 0, c => c
  | n + 1, c => stepN n c.step

/-- Fuelled run loop: invoke `step` while the cycle ceiling has not been
reached. -/
def runFuel : Nat → RiscVCore → RiscVCore
  | 0, c => c
  | n + 1, c => if c.cycles < CEILING then runFuel n c.step else c

/-- `run()`: repeatedly invoke `step()` until the cycle ceiling (5000) is
reached; the ceiling is the guaranteed termination condition. -/
def RiscVCore.run (c : RiscVCore) : RiscVCore := runFuel (CEILING - c.cycles) c

/-! ### Disassembler.

Modelled from the spec: `disassemble(word, address)` of `riscv_defs` decodes a
32-bit word into canonical mnemonic syntax, returns an empty string for the
word 0 (still-empty memory), and renders undecodable opcode patterns as a
clearly-marked unknown form; it is total. -/

def rName (i : Nat) : String := "x" ++ toString i

def ropName : ROp → String
  | .add => "add" | .sub => "sub" | .sll => "sll" | .slt => "slt"
  | .sltu => "sltu" | .xor => "xor" | .srl => "srl" | .sra => "sra"
  | .or => "or" | .and => "and"

def iopName : IOp → String
  | .addi => "addi" | .slti => "slti" | .sltiu => "sltiu"
  | .xori => "xori" | .ori => "ori" | .andi => "andi"

def shName : ShOp → String
  | .slli => "slli" | .srli => "srli" | .srai => "srai"

def loadName : LoadOp → String
  | .lb => "lb" | .lh => "lh" | .lw => "lw" | .lbu => "lbu" | .lhu => "lhu"

def storeName : StoreOp → String
  | .sb => "sb" | .sh => "sh" | .sw => "sw"

def brName : BrOp → String
  | .beq => "beq" | .bne => "bne" | .blt => "blt"
  | .bge => "bge" | .bltu => "bltu" | .bgeu => "bgeu"

/-- Render a decoded instruction in canonical mnemonic syntax. -/
def renderInstr (a : Nat) : Instr → String
  | .rop f rd rs1 rs2 =>
    ropName f ++ " " ++ rName rd ++ ", " ++ rName rs1 ++ ", " ++ rName rs2
  | .iop f rd rs1 imm =>
    iopName f ++ " " ++ rName rd ++ ", " ++ rName rs1 ++ ", " ++ toString imm
  | .shift f rd rs1 sh =>
    shName f ++ " " ++ rName rd ++ ", " ++ rName rs1 ++ ", " ++ toString sh
  | .load f rd rs1 imm =>
    loadName f ++ " " ++ rName rd ++ ", " ++ toString imm ++ "(" ++ rName rs1 ++ ")"
  | .store f rs2 rs1 imm =>
    storeName f ++ " " ++ rName rs2 ++ ", " ++ toString imm ++ "(" ++ rName rs1 ++ ")"
  | .branch f rs1 rs2 imm =>
    brName f ++ " " ++ rName rs1 ++ ", " ++ rName rs2 ++ ", " ++
      toString (toU32 ((a : Int) + imm))
  | .jal rd imm =>
    "jal " ++ rName rd ++ ", " ++ toString (toU32 ((a : Int) + imm))
  | .jalr rd rs1 imm =>
    "jalr " ++ rName rd ++ ", " ++ toString imm ++ "(" ++ rName rs1 ++ ")"
  | .lui rd imm20 => "lui " ++ rName rd ++ ", " ++ toString imm20
  | .auipc rd imm20 => "auipc " ++ rName rd ++ ", " ++ toString imm20

/-- `disassemble(word, address)`: total over all 32-bit words; empty string
for 0, a clearly-marked unknown form for undecodable opcode patterns. -/
def disassemble (w : Nat) (a : Nat) : String :=
  if w % 4294967296 = 0 then ""
  else
    match decode w with
    | none => "unknown (" ++ toString (w % 4294967296) ++ ")"
    | some i => renderInstr a i

/-! ### Assembler.

Modelled from the spec: the `assembler` module (`parse_assembly`, a two-pass
translator: pass 1 resolves labels and expands pseudo-instructions, pass 2
encodes canonical instructions into 32-bit words) is not among the visible
sources; it is reconstructed from the specification of the Assembler
component.  Text is processed as character lists. -/

/-- Structured assembly failure carrying line number and message. -/
structure AsmError where
  line : Nat
  msg : String
deriving DecidableEq, Repr

/-- Assembled program: machine words plus the symbol table. -/
structure AsmProgram where
  machine_code : List Nat
  symbols : List (String × Nat)
deriving DecidableEq, Repr

/-- Build a structured error. -/
def errE (l : Nat) (m : String) : Except AsmError α := .error ⟨l, m⟩

/-- Split a character list on a separator character. -/
def splitOnChar (c : Char) : List Char → List (List Char)
  | [] => [[]]
  | a :: as =>
      let r := splitOnChar c as
      if a = c then [] :: r
      else
        match r with
        | [] => [[a]]
        | x :: xs => (a :: x) :: xs

/-- Whitespace test. -/
def isWs (c : Char) : Bool := c = ' ' ∨ c = '\t' ∨ c = '\r'

/-- Trim leading and trailing whitespace. -/
def trimC (l : List Char) : List Char :=
  ((l.dropWhile isWs).reverse.dropWhile isWs).reverse

/-- Strip the comment (from `#` to end of line) and surrounding whitespace. -/
def stripLine (l : List Char) : List Char := trimC (l.takeWhile (· ≠ '#'))

/-- A stripped line is a label definition when it ends in `:`. -/
def isLabelLine (l : List Char) : Bool := l.getLast? = some ':'

/-- First whitespace-delimited token: the mnemonic. -/
def firstTok (l : List Char) : List Char := l.takeWhile (fun c => ¬ isWs c)

/-- The rest of the line after the mnemonic. -/
def restTok (l : List Char) : List Char := trimC (l.dropWhile (fun c => ¬ isWs c))

/-- Split an operand field on commas, trimming each operand. -/
def splitOps (l : List Char) : List (List Char) :=
  if l.isEmpty then [] else (splitOnChar ',' l).map trimC

/-- Parse an unsigned decimal numeral. -/
def parseNat : List Char → Option Nat
  | [] => none
  | l => l.foldl (fun acc c =>
      match acc with
      | none => none
      | some n => if c.isDigit then some (n * 10 + (c.toNat - 48)) else none)
      (some 0)

/-- Parse a signed decimal numeral. -/
def parseInt (l : List Char) : Option Int :=
  match l with
  | '-' :: r => (parseNat r).map (fun n => -(n : Int))
  | _ => (parseNat l).map (fun n => (n : Int))

/-- ABI register names: fixed mapping from name to register index. -/
def abiTable : List (List Char × Nat) :=
  [("zero".data, 0), ("ra".data, 1), ("sp".data, 2), ("gp".data, 3),
   ("tp".data, 4), ("t0".data, 5), ("t1".data, 6), ("t2".data, 7),
   ("s0".data, 8), ("fp".data, 8), ("s1".data, 9),
   ("a0".data, 10), ("a1".data, 11), ("a2".data, 12), ("a3".data, 13),
   ("a4".data, 14), ("a5".data, 15), ("a6".data, 16), ("a7".data, 17),
   ("s2".data, 18), ("s3".data, 19), ("s4".data, 20), ("s5".data, 21),
   ("s6".data, 22), ("s7".data, 23), ("s8".data, 24), ("s9".data, 25),
   ("s10".data, 26), ("s11".data, 27),
   ("t3".data, 28), ("t4".data, 29), ("t5".data, 30), ("t6".data, 31)]

/-- Association lookup over character-list keys. -/
def lookupC (t : List (List Char × Nat)) (k : List Char) : Option Nat :=
  match t with
  | [] => none
  | (n, v) :: r => if n = k then some v else lookupC r k

/-- Parse a register operand: `xN` or an ABI name, resolving identically. -/
def parseReg (o : List Char) : Option Nat :=
  match lookupC abiTable o with
  | some n => some n
  | none =>
    match o with
    | 'x' :: r =>
      match parseNat r with
      | some n => if n < 32 then some n else none
      | none => none
    | _ => none

/-- Parse a memory operand `imm(reg)`. -/
def parseMem (o : List Char) : Option (Int × Nat) :=
  match splitOnChar '(' o with
  | [i, r] =>
    if r.getLast? = some ')' then
      match parseInt (trimC i), parseReg (trimC r.dropLast) with
      | some v, some n => some (v, n)
      | _, _ => none
    else none
  | _ => none

/-! #### Instruction encoders (standard RV32I bit layout). -/

def encR (f7 rs2 rs1 f3 rd op : Nat) : Nat :=
  f7 * 33554432 + rs2 * 1048576 + rs1 * 32768 + f3 * 4096 + rd * 128 + op

def encI (imm : Int) (rs1 f3 rd op : Nat) : Nat :=
  (imm % 4096).toNat * 1048576 + rs1 * 32768 + f3 * 4096 + rd * 128 + op

def encS (imm : Int) (rs2 rs1 f3 : Nat) : Nat :=
  let u := (imm % 4096).toNat
  u / 32 * 33554432 + rs2 * 1048576 + rs1 * 32768 + f3 * 4096 + u % 32 * 128 + 35

def encB (imm : Int) (rs2 rs1 f3 : Nat) : Nat :=
  let u := (imm % 8192).toNat
  u / 4096 * 2147483648 + u / 32 % 64 * 33554432 + rs2 * 1048576 + rs1 * 32768 +
    f3 * 4096 + u / 2 % 16 * 256 + u / 2048 % 2 * 128 + 99

def encU (imm20 rd op : Nat) : Nat := imm20 * 4096 + rd * 128 + op

def encJ (imm : Int) (rd : Nat) : Nat :=
  let u := (imm % 2097152).toNat
  u / 1048576 * 2147483648 + u / 2 % 1024 * 2097152 + u / 2048 % 2 * 1048576 +
    u / 4096 % 256 * 4096 + rd * 128 + 111

/-- A pending canonical instruction produced by pass 1: source line number,
assigned byte address, mnemonic, raw operand fields. -/
structure PInstr where
  line : Nat
  addr : Nat
  mnem : List Char
  ops : List (List Char)
deriving DecidableEq, Repr

/-! #### Pass-2 encoding of one pending instruction. -/

def rTypeE (p : PInstr) (f7 f3 : Nat) : Except AsmError Nat :=
  match p.ops with
  | [a, b, c] =>
    match parseReg a, parseReg b, parseReg c with
    | some rd, some rs1, some rs2 => .ok (encR f7 rs2 rs1 f3 rd 51)
    | _, _, _ => errE p.line "Invalid register operand"
  | _ => errE p.line "Wrong number of operands"

def iTypeE (p : PInstr) (f3 : Nat) : Except AsmError Nat :=
  match p.ops with
  | [a, b, i] =>
    match parseReg a, parseReg b with
    | some rd, some rs1 =>
      match parseInt i with
      | some v =>
        if -2048 ≤ v ∧ v < 2048 then .ok (encI v rs1 f3 rd 19)
        else errE p.line "Immediate out of range"
      | none => errE p.line "Invalid immediate"
    | _, _ => errE p.line "Invalid register operand"
  | _ => errE p.line "Wrong number of operands"

def shTypeE (p : PInstr) (f3 f7 : Nat) : Except AsmError Nat :=
  match p.ops with
  | [a, b, i] =>
    match parseReg a, parseReg b with
    | some rd, some rs1 =>
      match parseInt i with
      | some v =>
        if 0 ≤ v ∧ v < 32 then .ok (encR f7 v.toNat rs1 f3 rd 19)
        else errE p.line "Immediate out of range"
      | none => errE p.line "Invalid immediate"
    | _, _ => errE p.line "Invalid register operand"
  | _ => errE p.line "Wrong number of operands"

def loadE (p : PInstr) (f3 : Nat) : Except AsmError Nat :=
  match p.ops with
  | [a, m] =>
    match parseReg a, parseMem m with
    | some rd, some (v, rs1) =>
      if -2048 ≤ v ∧ v < 2048 then .ok (encI v rs1 f3 rd 3)
      else errE p.line "Immediate out of range"
    | _, _ => errE p.line "Invalid operand"
  | _ => errE p.line "Wrong number of operands"

def storeE (p : PInstr) (f3 : Nat) : Except AsmError Nat :=
  match p.ops with
  | [a, m] =>
    match parseReg a, parseMem m with
    | some rs2, some (v, rs1) =>
      if -2048 ≤ v ∧ v < 2048 then .ok (encS v rs2 rs1 f3)
      else errE p.line "Immediate out of range"
    | _, _ => errE p.line "Invalid operand"
  | _ => errE p.line "Wrong number of operands"

/-- Resolve a branch/jump target: a defined label yields the signed byte
offset from the instruction's own address; otherwise a numeric offset. -/
def resolveOff (syms : List (List Char × Nat)) (t : List Char) (addr : Nat) :
    Option Int :=
  match lookupC syms t with
  | some ta => some ((ta : Int) - (addr : Int))
  | none => parseInt t

def branchE (syms : List (List Char × Nat)) (p : PInstr) (f3 : Nat) :
    Except AsmError Nat :=
  match p.ops with
  | [a, b, t] =>
    match parseReg a, parseReg b with
    | some rs1, some rs2 =>
      match resolveOff syms t p.addr with
      | some v =>
        if -4096 ≤ v ∧ v < 4096 ∧ v % 2 = 0 then .ok (encB v rs2 rs1 f3)
        else errE p.line "Immediate out of range"
      | none => errE p.line "Undefined label"
    | _, _ => errE p.line "Invalid register operand"
  | _ => errE p.line "Wrong number of operands"

def jalE (syms : List (List Char × Nat)) (p : PInstr) : Except AsmError Nat :=
  match p.ops with
  | [a, t] =>
    match parseReg a with
    | some rd =>
      match resolveOff syms t p.addr with
      | some v =>
        if -1048576 ≤ v ∧ v < 1048576 ∧ v % 2 = 0 then .ok (encJ v rd)
        else errE p.line "Immediate out of range"
      | none => errE p.line "Undefined label"
    | none => errE p.line "Invalid register operand"
  | _ => errE p.line "Wrong number of operands"

def jalrE (p : PInstr) : Except AsmError Nat :=
  match p.ops with
  | [a, b, i] =>
    match parseReg a, parseReg b with
    | some rd, some rs1 =>
      match parseInt i with
      | some v =>
        if -2048 ≤ v ∧ v < 2048 then .ok (encI v rs1 0 rd 103)
        else errE p.line "Immediate out of range"
      | none => errE p.line "Invalid immediate"
    | _, _ => errE p.line "Invalid register operand"
  | _ => errE p.line "Wrong number of operands"

def uTypeE (p : PInstr) (op : Nat) : Except AsmError Nat :=
  match p.ops with
  | [a, i] =>
    match parseReg a with
    | some rd =>
      match parseInt i with
      | some v =>
        if 0 ≤ v ∧ v < 1048576 then .ok (encU v.toNat rd op)
        else errE p.line "Immediate out of range"
      | none => errE p.line "Invalid immediate"
    | none => errE p.line "Invalid register operand"
  | _ => errE p.line "Wrong number of operands"

/-- Encoding dispatch kinds for the canonical mnemonics. -/
inductive EncKind where
  | r (f7 f3 : Nat)
  | i (f3 : Nat)
  | sh (f3 f7 : Nat)
  | ld (f3 : Nat)
  | st (f3 : Nat)
  | br (f3 : Nat)
  | uj
  | ujr
  | u (op : Nat)
deriving DecidableEq, Repr

/-- Mnemonic dispatch table for pass-2 encoding. -/
def encTable : List (List Char × EncKind) :=
  [("add".data, .r 0 0), ("sub".data, .r 32 0), ("sll".data, .r 0 1),
   ("slt".data, .r 0 2), ("sltu".data, .r 0 3), ("xor".data, .r 0 4),
   ("srl".data, .r 0 5), ("sra".data, .r 32 5), ("or".data, .r 0 6),
   ("and".data, .r 0 7),
   ("addi".data, .i 0), ("slti".data, .i 2), ("sltiu".data, .i 3),
   ("xori".data, .i 4), ("ori".data, .i 6), ("andi".data, .i 7),
   ("slli".data, .sh 1 0), ("srli".data, .sh 5 0), ("srai".data, .sh 5 32),
   ("lb".data, .ld 0), ("lh".data, .ld 1), ("lw".data, .ld 2),
   ("lbu".data, .ld 4), ("lhu".data, .ld 5),
   ("sb".data, .st 0), ("sh".data, .st 1), ("sw".data, .st 2),
   ("beq".data, .br 0), ("bne".data, .br 1), ("blt".data, .br 4),
   ("bge".data, .br 5), ("bltu".data, .br 6), ("bgeu".data, .br 7),
   ("jal".data, .uj), ("jalr".data, .ujr),
   ("lui".data, .u 55), ("auipc".data, .u 23)]

/-- Association lookup of an encoding kind. -/
def lookupK (t : List (List Char × EncKind)) (k : List Char) : Option EncKind :=
  match t with
  | [] => none
  | (n, v) :: r => if n = k then some v else lookupK r k

/-- Pass 2: encode one canonical instruction, resolving labels against the
symbol table and validating immediate ranges. -/
def encodeInstr (syms : List (List Char × Nat)) (p : PInstr) :
    Except AsmError Nat :=
  match lookupK encTable p.mnem with
  | some (.r f7 f3) => rTypeE p f7 f3
  | some (.i f3) => iTypeE p f3
  | some (.sh f3 f7) => shTypeE p f3 f7
  | some (.ld f3) => loadE p f3
  | some (.st f3) => storeE p f3
  | some (.br f3) => branchE syms p f3
  | some .uj => jalE syms p
  | some .ujr => jalrE p
  | some (.u op) => uTypeE p op
  | none => errE p.line "Unknown mnemonic"

/-- The 37 canonical (directly encodable) RV32I mnemonics. -/
def canonicalMnemonics : List (List Char) :=
  ["add".data, "sub".data, "sll".data, "slt".data, "sltu".data, "xor".data,
   "srl".data, "sra".data, "or".data, "and".data,
   "addi".data, "slti".data, "sltiu".data, "xori".data, "ori".data,
   "andi".data, "slli".data, "srli".data, "srai".data,
   "lb".data, "lh".data, "lw".data, "lbu".data, "lhu".data,
   "sb".data, "sh".data, "sw".data,
   "beq".data, "bne".data, "blt".data, "bge".data, "bltu".data, "bgeu".data,
   "jal".data, "jalr".data, "lui".data, "auipc".data]

/-- Pass-1 pseudo-instruction expansion: a pure rewrite from one high-level
instruction to an ordered sequence of canonical instructions, appending one
human-readable line to the expansion log per expansion; a canonical (or
unknown) mnemonic passes through unchanged with no log entry. -/
def expandPseudo (n addr : Nat) (m : List Char) (ops : List (List Char)) :
    Except AsmError (List PInstr × List String) :=
  if m = "nop".data then
    .ok ([⟨n, addr, "addi".data, ["x0".data, "x0".data, "0".data]⟩],
         ["nop -> addi x0, x0, 0"])
  else if m = "mv".data then
    match ops with
    | [rd, rs] =>
      .ok ([⟨n, addr, "addi".data, [rd, rs, "0".data]⟩],
           ["mv -> addi " ++ String.mk rd ++ ", " ++ String.mk rs ++ ", 0"])
    | _ => errE n "Wrong number of operands"
  else if m = "li".data then
    match ops with
    | [rd, i] =>
      match parseInt i with
      | some v =>
        if -2048 ≤ v ∧ v < 2048 then
          .ok ([⟨n, addr, "addi".data, [rd, "x0".data, (toString v).data]⟩],
               ["li -> addi " ++ String.mk rd ++ ", x0, " ++ toString v])
        else if -2147483648 ≤ v ∧ v < 4294967296 then
          let lo := sext12 (v % 4096).toNat
          let hi := ((v - lo) / 4096 % 1048576).toNat
          .ok ([⟨n, addr, "lui".data, [rd, (toString hi).data]⟩,
                ⟨n, addr + 4, "addi".data, [rd, rd, (toString lo).data]⟩],
               ["li -> lui " ++ String.mk rd ++ ", " ++ toString hi ++
                "; addi " ++ String.mk rd ++ ", " ++ String.mk rd ++ ", " ++
                toString lo])
        else errE n "Immediate out of range"
      | none => errE n "Invalid immediate"
    | _ => errE n "Wrong number of operands"
  else if m = "j".data then
    match ops with
    | [t] => .ok ([⟨n, addr, "jal".data, ["x0".data, t]⟩],
                  ["j -> jal x0, " ++ String.mk t])
    | _ => errE n "Wrong number of operands"
  else if m = "ret".data then
    .ok ([⟨n, addr, "jalr".data, ["x0".data, "x1".data, "0".data]⟩],
         ["ret -> jalr x0, x1, 0"])
  else if m = "call".data then
    match ops with
    | [t] => .ok ([⟨n, addr, "jal".data, ["x1".data, t]⟩],
                  ["call -> jal x1, " ++ String.mk t])
    | _ => errE n "Wrong number of operands"
  else if m = "beqz".data then
    match ops with
    | [r, t] => .ok ([⟨n, addr, "beq".data, [r, "x0".data, t]⟩],
                     ["beqz -> beq " ++ String.mk r ++ ", x0, " ++ String.mk t])
    | _ => errE n "Wrong number of operands"
  else if m = "bnez".data then
    match ops with
    | [r, t] => .ok ([⟨n, addr, "bne".data, [r, "x0".data, t]⟩],
                     ["bnez -> bne " ++ String.mk r ++ ", x0, " ++ String.mk t])
    | _ => errE n "Wrong number of operands"
  else .ok ([⟨n, addr, m, ops⟩], [])

/-- Pass-1 accumulator: running byte address, symbol table, pending
canonical instructions, expansion log. -/
structure P1State where
  addr : Nat
  syms : List (List Char × Nat)
  pend : List PInstr
  log : List String
deriving Repr

/-- Pass 1: walk numbered source lines in order, assigning addresses,
recording labels (duplicates are fatal) and expanding pseudo-instructions. -/
def pass1 : List (Nat × List Char) → P1State → Except AsmError P1State
  | [], st => .ok st
  | (n, raw) :: rest, st =>
    if (stripLine raw).isEmpty then pass1 rest st
    else if isLabelLine (stripLine raw) then
      match lookupC st.syms (trimC (stripLine raw).dropLast) with
      | some _ => errE n "Duplicate label"
      | none =>
        pass1 rest
          { st with syms := st.syms ++ [(trimC (stripLine raw).dropLast, st.addr)] }
    else
      match expandPseudo n st.addr (firstTok (stripLine raw))
          (splitOps (restTok (stripLine raw))) with
      | .error e => .error e
      | .ok (is, lg) =>
        pass1 rest { st with addr := st.addr + 4 * is.length,
                             pend := st.pend ++ is, log := st.log ++ lg }

/-- Effectful map over `Except`, returning the first error. -/
def mapME (f : α → Except AsmError β) : List α → Except AsmError (List β)
  | [] => .ok []
  | a :: as =>
    match f a with
    | .error e => .error e
    | .ok b =>
      match mapME f as with
      | .error e => .error e
      | .ok bs => .ok (b :: bs)

/-- Number the split source lines starting from 1. -/
def numberFrom (n : Nat) : List α → List (Nat × α)
  | [] => []
  | a :: as => (n, a) :: numberFrom (n + 1) as

/-- The numbered source lines of a program text. -/
def srcLines (src : String) : List (Nat × List Char) :=
  numberFrom 1 (splitOnChar '\n' src.data)

/-- A numbered source line carrying an instruction: non-blank and not a
label definition after comment stripping. -/
def isInstrLine (q : Nat × List Char) : Bool :=
  !(stripLine q.2).isEmpty && !isLabelLine (stripLine q.2)

/-- The instruction lines of a program text: non-blank, non-label lines
after comment stripping. -/
def instrLines (src : String) : List (Nat × List Char) :=
  (srcLines src).filter isInstrLine

/-- `parse_assembly(source)`: the two-pass assembler.  Returns the assembled
program and the expansion log, or aborts entirely with a single structured
error (no partial program). -/
def parse_assembly (src : String) : Except AsmError (AsmProgram × List String) :=
  match pass1 (srcLines src) ⟨0, [], [], []⟩ with
  | .error e => .error e
  | .ok st =>
    match mapME (encodeInstr st.syms) st.pend with
    | .error e => .error e
    | .ok code =>
      .ok ({ machine_code := code,
             symbols := st.syms.map (fun q => (String.mk q.1, q.2)) }, st.log)

/-! ### Session state and callbacks (embedded from `src/app.py`).

`app.py` keeps `core`, `program_info` and `assembly_code` in the Streamlit
session state; `assemble_and_load` parses the current text and on success
stores the program info and a freshly constructed, freshly loaded core,
while on any exception it reports the error and sets the core to `None`. -/

structure Session where
  core : Option RiscVCore
  program_info : Option (AsmProgram × List String)
  assembly_code : String
deriving DecidableEq, Repr

/-- `assemble_and_load` callback of `app.py` (lines 116-125). -/
def assemble_and_load (s : Session) : Session :=
  match parse_assembly s.assembly_code with
  | .ok (p, log) =>
    { s with program_info := some (p, log),
             core := some (RiscVCore.load_program initCore p.machine_code) }
  | .error _ => { s with core := none }

/-- `step_core` callback of `app.py`. -/
def step_core (s : Session) : Session :=
  match s.core with
  | some c => { s with core := some c.step }
  | none => s

/-- `run_core` callback of `app.py`. -/
def run_core (s : Session) : Session :=
  match s.core with
  | some c => { s with core := some c.run }
  | none => s

/-- `reset_core` callback of `app.py`. -/
def reset_core (s : Session) : Session :=
  match s.core with
  | some c => { s with core := some c.reset }
  | none => s

/-! ## Supporting lemmas -/

/-- Setting a nonzero index leaves position 0 unchanged. -/
theorem getD_set_zero (l : List Int) (n : Nat) (v : Int) (hn : n ≠ 0) :
    (l.set n v).getD 0 0 = l.getD 0 0 := by
  cases l with
  | nil => rfl
  | cons a t =>
    cases n with
    | zero => exact absurd rfl hn
    | succ m => rfl

/-- A register write never changes the observable value of register 0. -/
theorem writeReg_getD0 (rs : List Int) (i : Nat) (v : Int) :
    (writeReg rs i v).getD 0 0 = rs.getD 0 0 := by
  unfold writeReg
  split
  · rfl
  · exact getD_set_zero rs i v (by assumption)

/-- Executing any decoded instruction preserves register 0. -/
theorem execInstr_reg0 (c : RiscVCore) (i : Instr) :
    (execInstr c i).regs.getD 0 0 = c.regs.getD 0 0 := by
  cases i with
  | rop f rd rs1 rs2 => exact writeReg_getD0 _ _ _
  | iop f rd rs1 imm => exact writeReg_getD0 _ _ _
  | shift f rd rs1 sh => exact writeReg_getD0 _ _ _
  | load f rd rs1 imm => exact writeReg_getD0 _ _ _
  | store f rs2 rs1 imm => rfl
  | branch f rs1 rs2 imm => simp only [execInstr]; split <;> rfl
  | jal rd imm => exact writeReg_getD0 _ _ _
  | jalr rd rs1 imm => exact writeReg_getD0 _ _ _
  | lui rd imm20 => exact writeReg_getD0 _ _ _
  | auipc rd imm20 => exact writeReg_getD0 _ _ _

/-- A single step preserves register 0. -/
theorem step_reg0 (c : RiscVCore) :
    c.step.regs.getD 0 0 = c.regs.getD 0 0 := by
  unfold RiscVCore.step
  split
  · split
    · rfl
    · exact execInstr_reg0 c _
  · rfl

/-- Iterated steps preserve register 0. -/
theorem stepN_reg0 (n : Nat) (c : RiscVCore) :
    (stepN n c).regs.getD 0 0 = c.regs.getD 0 0 := by
  induction n generalizing c with
  | zero => rfl
  | succ m ih => rw [stepN, ih, step_reg0]

/-- Below the ceiling, a step increments the cycle counter by exactly 1. -/
theorem step_cycles_lt (c : RiscVCore) (h : c.cycles < CEILING) :
    c.step.cycles = c.cycles + 1 := by
  unfold RiscVCore.step
  rw [if_pos h]

/-- At or above the ceiling, a step is a no-op. -/
theorem step_halted (c : RiscVCore) (h : ¬ c.cycles < CEILING) :
    c.step = c := by
  unfold RiscVCore.step
  rw [if_neg h]

/-- With fuel equal to the remaining budget, the run loop lands exactly on
the ceiling. -/
theorem runFuel_exact (n : Nat) (c : RiscVCore) (h : c.cycles + n = CEILING) :
    (runFuel n c).cycles = CEILING := by
  induction n generalizing c with
  | zero => simpa using h
  | succ m ih =>
    have hlt : c.cycles < CEILING := by omega
    rw [runFuel, if_pos hlt]
    exact ih c.step (by rw [step_cycles_lt c hlt]; omega)

/-- The cycle counter never exceeds the ceiling during the run loop. -/
theorem runFuel_le (n : Nat) (c : RiscVCore) (h : c.cycles ≤ CEILING) :
    (runFuel n c).cycles ≤ CEILING := by
  induction n generalizing c with
  | zero => simpa using h
  | succ m ih =>
    rw [runFuel]
    split
    · exact ih c.step (by rw [step_cycles_lt c (by assumption)]; omega)
    · exact h

/-- Bytes of `List.replicate` with the default as element. -/
theorem getD_replicate (n i : Nat) (z : α) :
    (List.replicate n z).getD i z = z := by
  induction n generalizing i with
  | zero => simp [List.getD]
  | succ m ih =>
    cases i with
    | zero => rfl
    | succ j => simp [List.replicate, ih j]

/-- Indexing into the little-endian byte flattening of a word list. -/
theorem flat_getD (ws rest : List Nat) (i j : Nat) (hi : i < ws.length)
    (hj : j < 4) :
    ((ws.flatMap wordBytes) ++ rest).getD (4 * i + j) 0 =
      ws.getD i 0 / 256 ^ j % 256 := by
  induction ws generalizing i with
  | nil => simp at hi
  | cons w tl ih =>
    cases i with
    | zero =>
      interval_cases j <;> simp [wordBytes, List.getD]
    | succ k =>
      have hidx : 4 * (k + 1) + j = (4 * k + j) + 4 := by ring
      rw [hidx]
      have : ((w :: tl).flatMap wordBytes) ++ rest =
          w % 256 :: (w / 256 % 256 :: (w / 65536 % 256 :: (w / 16777216 % 256 ::
            ((tl.flatMap wordBytes) ++ rest)))) := by
        simp [wordBytes]
      rw [this]
      simpa [List.getD_cons_succ] using ih k (by simpa using hi)

/-- An error built by `errE` determines its payload. -/
theorem errE_cases {α : Type} {l : Nat} {m : String} {e : AsmError}
    (h : (errE l m : Except AsmError α) = .error e) : e = ⟨l, m⟩ := by
  unfold errE at h
  injection h with h1
  exact h1.symm

/-- Errors from R-type encoding carry the instruction's line and a message. -/
theorem rTypeE_err {p : PInstr} {f7 f3 : Nat} {e : AsmError}
    (h : rTypeE p f7 f3 = .error e) : e.line = p.line ∧ 0 < e.msg.length := by
  unfold rTypeE at h
  repeat' split at h
  all_goals first
    | (cases errE_cases h; exact ⟨rfl, Nat.succ_pos _⟩)
    | simp at h

/-- Errors from I-type encoding carry the instruction's line and a message. -/
theorem iTypeE_err {p : PInstr} {f3 : Nat} {e : AsmError}
    (h : iTypeE p f3 = .error e) : e.line = p.line ∧ 0 < e.msg.length := by
  unfold iTypeE at h
  repeat' split at h
  all_goals first
    | (cases errE_cases h; exact ⟨rfl, Nat.succ_pos _⟩)
    | simp at h

/-- Errors from shift encoding carry the instruction's line and a message. -/
theorem shTypeE_err {p : PInstr} {f3 f7 : Nat} {e : AsmError}
    (h : shTypeE p f3 f7 = .error e) : e.line = p.line ∧ 0 < e.msg.length := by
  unfold shTypeE at h
  repeat' split at h
  all_goals first
    | (cases errE_cases h; exact ⟨rfl, Nat.succ_pos _⟩)
    | simp at h

/-- Errors from load encoding carry the instruction's line and a message. -/
theorem loadE_err {p : PInstr} {f3 : Nat} {e : AsmError}
    (h : loadE p f3 = .error e) : e.line = p.line ∧ 0 < e.msg.length := by
  unfold loadE at h
  repeat' split at h
  all_goals first
    | (cases errE_cases h; exact ⟨rfl, Nat.succ_pos _⟩)
    | simp at h

/-- Errors from store encoding carry the instruction's line and a message. -/
theorem storeE_err {p : PInstr} {f3 : Nat} {e : AsmError}
    (h : storeE p f3 = .error e) : e.line = p.line ∧ 0 < e.msg.length := by
  unfold storeE at h
  repeat' split at h
  all_goals first
    | (cases errE_cases h; exact ⟨rfl, Nat.succ_pos _⟩)
    | simp at h

/-- Errors from branch encoding carry the instruction's line and a message. -/
theorem branchE_err {syms} {p : PInstr} {f3 : Nat} {e : AsmError}
    (h : branchE syms p f3 = .error e) : e.line = p.line ∧ 0 < e.msg.length := by
  unfold branchE at h
  repeat' split at h
  all_goals first
    | (cases errE_cases h; exact ⟨rfl, Nat.succ_pos _⟩)
    | simp at h

/-- Errors from `jal` encoding carry the instruction's line and a message. -/
theorem jalE_err {syms} {p : PInstr} {e : AsmError}
    (h : jalE syms p = .error e) : e.line = p.line ∧ 0 < e.msg.length := by
  unfold jalE at h
  repeat' split at h
  all_goals first
    | (cases errE_cases h; exact ⟨rfl, Nat.succ_pos _⟩)
    | simp at h

/-- Errors from `jalr` encoding carry the instruction's line and a message. -/
theorem jalrE_err {p : PInstr} {e : AsmError}
    (h : jalrE p = .error e) : e.line = p.line ∧ 0 < e.msg.length := by
  unfold jalrE at h
  repeat' split at h
  all_goals first
    | (cases errE_cases h; exact ⟨rfl, Nat.succ_pos _⟩)
    | simp at h

/-- Errors from U-type encoding carry the instruction's line and a message. -/
theorem uTypeE_err {p : PInstr} {op : Nat} {e : AsmError}
    (h : uTypeE p op = .error e) : e.line = p.line ∧ 0 < e.msg.length := by
  unfold uTypeE at h
  repeat' split at h
  all_goals first
    | (cases errE_cases h; exact ⟨rfl, Nat.succ_pos _⟩)
    | simp at h

/-- Every pass-2 encoding error carries the pending instruction's source line
and a nonempty message. -/
theorem encodeInstr_err {syms} {p : PInstr} {e : AsmError}
    (h : encodeInstr syms p = .error e) : e.line = p.line ∧ 0 < e.msg.length := by
  unfold encodeInstr at h
  cases hk : lookupK encTable p.mnem with
  | none =>
    rw [hk] at h
    cases errE_cases h
    exact ⟨rfl, Nat.succ_pos _⟩
  | some k =>
    rw [hk] at h
    cases k with
    | r f7 f3 => exact rTypeE_err h
    | i f3 => exact iTypeE_err h
    | sh f3 f7 => exact shTypeE_err h
    | ld f3 => exact loadE_err h
    | st f3 => exact storeE_err h
    | br f3 => exact branchE_err h
    | uj => exact jalE_err h
    | ujr => exact jalrE_err h
    | u op => exact uTypeE_err h

/-- Every pass-1 expansion error carries the source line and a nonempty
message. -/
theorem expandPseudo_err {n addr : Nat} {m : List Char} {ops} {e : AsmError}
    (h : expandPseudo n addr m ops = .error e) :
    e.line = n ∧ 0 < e.msg.length := by
  unfold expandPseudo at h
  repeat' split at h
  all_goals first
    | (cases errE_cases h; exact ⟨rfl, Nat.succ_pos _⟩)
    | simp at h

/-- Every pending instruction produced by one expansion carries the source
line it came from. -/
theorem expandPseudo_lines {n addr : Nat} {m : List Char} {ops}
    {is : List PInstr} {lg : List String}
    (h : expandPseudo n addr m ops = .ok (is, lg)) :
    ∀ q ∈ is, q.line = n := by
  unfold expandPseudo at h
  repeat' split at h
  all_goals simp [errE] at h
  all_goals obtain ⟨h1, h2⟩ := h
  all_goals subst h1
  all_goals simp

/-- Line numbers produced by `numberFrom n` are at least `n`. -/
theorem numberFrom_ge {α : Type} :
    ∀ (ls : List α) (n : Nat) (q : Nat × α), q ∈ numberFrom n ls → n ≤ q.1 := by
  intro ls
  induction ls with
  | nil => intro n q hq; simp [numberFrom] at hq
  | cons a tl ih =>
    intro n q hq
    rw [numberFrom] at hq
    rcases List.mem_cons.mp hq with rfl | hmem
    · exact Nat.le_refl n
    · exact Nat.le_trans (Nat.le_succ n) (ih (n + 1) q hmem)

/-- Pass-1 failures carry a 1-based source line and a nonempty message. -/
theorem pass1_err :
    ∀ (ls : List (Nat × List Char)) (st : P1State) (e : AsmError),
      (∀ q ∈ ls, 1 ≤ q.1) → pass1 ls st = .error e →
      1 ≤ e.line ∧ 0 < e.msg.length := by
  intro ls
  induction ls with
  | nil => intro st e hq h; simp [pass1] at h
  | cons hd tl ih =>
    obtain ⟨n, raw⟩ := hd
    intro st e hq h
    have hn : 1 ≤ n := hq (n, raw) (List.mem_cons_self _ _)
    have htl : ∀ q ∈ tl, 1 ≤ q.1 := fun q hq2 => hq q (List.mem_cons_of_mem _ hq2)
    rw [pass1] at h
    by_cases hb1 : (stripLine raw).isEmpty = true
    · rw [if_pos hb1] at h
      exact ih st e htl h
    · rw [if_neg hb1] at h
      by_cases hb2 : isLabelLine (stripLine raw) = true
      · rw [if_pos hb2] at h
        cases hc : lookupC st.syms (trimC (stripLine raw).dropLast) with
        | some v =>
          rw [hc] at h
          cases errE_cases h
          exact ⟨hn, Nat.succ_pos _⟩
        | none =>
          rw [hc] at h
          exact ih _ e htl h
      · rw [if_neg hb2] at h
        cases hex : expandPseudo n st.addr (firstTok (stripLine raw))
            (splitOps (restTok (stripLine raw))) with
        | error e0 =>
          rw [hex] at h
          injection h with h1
          subst h1
          obtain ⟨hl, hm⟩ := expandPseudo_err hex
          exact ⟨by omega, hm⟩
        | ok pr =>
          obtain ⟨is, lg⟩ := pr
          rw [hex] at h
          exact ih _ e htl h

/-- Pass 1 only appends pending instructions tagged with the source lines it
walked, so all pending lines stay at least 1. -/
theorem pass1_pend :
    ∀ (ls : List (Nat × List Char)) (st st' : P1State),
      (∀ q ∈ ls, 1 ≤ q.1) → (∀ p ∈ st.pend, 1 ≤ p.line) →
      pass1 ls st = .ok st' → ∀ p ∈ st'.pend, 1 ≤ p.line := by
  intro ls
  induction ls with
  | nil =>
    intro st st' hq hp h
    rw [pass1] at h
    injection h with h1
    subst h1
    exact hp
  | cons hd tl ih =>
    obtain ⟨n, raw⟩ := hd
    intro st st' hq hp h
    have hn : 1 ≤ n := hq (n, raw) (List.mem_cons_self _ _)
    have htl : ∀ q ∈ tl, 1 ≤ q.1 := fun q hq2 => hq q (List.mem_cons_of_mem _ hq2)
    rw [pass1] at h
    by_cases hb1 : (stripLine raw).isEmpty = true
    · rw [if_pos hb1] at h
      exact ih st st' htl hp h
    · rw [if_neg hb1] at h
      by_cases hb2 : isLabelLine (stripLine raw) = true
      · rw [if_pos hb2] at h
        cases hc : lookupC st.syms (trimC (stripLine raw).dropLast) with
        | some v =>
          rw [hc] at h
          simp [errE] at h
        | none =>
          rw [hc] at h
          exact ih
            { st with syms := st.syms ++ [(trimC (stripLine raw).dropLast, st.addr)] }
            st' htl hp h
      · rw [if_neg hb2] at h
        cases hex : expandPseudo n st.addr (firstTok (stripLine raw))
            (splitOps (restTok (stripLine raw))) with
        | error e0 =>
          rw [hex] at h
          simp at h
        | ok pr =>
          obtain ⟨is, lg⟩ := pr
          rw [hex] at h
          refine ih _ st' htl ?_ h
          intro p hmem
          rcases List.mem_append.mp hmem with hold | hnew
          · exact hp p hold
          · rw [expandPseudo_lines hex p hnew]
            exact hn

/-- A failing effectful map exposes a failing element. -/
theorem mapME_err {α β : Type} {f : α → Except AsmError β} :
    ∀ {xs : List α} {e : AsmError}, mapME f xs = .error e →
      ∃ x, x ∈ xs ∧ f x = .error e := by
  intro xs
  induction xs with
  | nil => intro e h; simp [mapME] at h
  | cons a as ih =>
    intro e h
    rw [mapME] at h
    cases hfa : f a with
    | error e0 =>
      rw [hfa] at h
      injection h with h1
      subst h1
      exact ⟨a, List.mem_cons_self _ _, hfa⟩
    | ok b =>
      rw [hfa] at h
      cases hrest : mapME f as with
      | error e0 =>
        rw [hrest] at h
        injection h with h1
        subst h1
        obtain ⟨x, hx, hfx⟩ := ih hrest
        exact ⟨x, List.mem_cons_of_mem _ hx, hfx⟩
      | ok bs => rw [hrest] at h; simp at h

/-- A successful effectful map preserves length. -/
theorem mapME_length {α β : Type} {f : α → Except AsmError β} :
    ∀ {xs : List α} {ys : List β}, mapME f xs = .ok ys →
      ys.length = xs.length := by
  intro xs
  induction xs with
  | nil =>
    intro ys h
    rw [mapME] at h
    injection h with h1
    subst h1
    rfl
  | cons a as ih =>
    intro ys h
    rw [mapME] at h
    cases hfa : f a with
    | error e0 => rw [hfa] at h; simp at h
    | ok b =>
      rw [hfa] at h
      cases hrest : mapME f as with
      | error e0 => rw [hrest] at h; simp at h
      | ok bs =>
        rw [hrest] at h
        injection h with h1
        subst h1
        simp [ih hrest]

/-- No canonical mnemonic is one of the pseudo-instruction mnemonics. -/
theorem canon_not_pseudo :
    ∀ m ∈ canonicalMnemonics,
      m ≠ "nop".data ∧ m ≠ "mv".data ∧ m ≠ "li".data ∧ m ≠ "j".data ∧
      m ≠ "ret".data ∧ m ≠ "call".data ∧ m ≠ "beqz".data ∧ m ≠ "bnez".data := by
  decide

/-- A canonical mnemonic passes through pass-1 expansion unchanged, with no
expansion-log entry. -/
theorem expand_canon {m : List Char} (hm : m ∈ canonicalMnemonics)
    (n a : Nat) (ops : List (List Char)) :
    expandPseudo n a m ops = .ok ([⟨n, a, m, ops⟩], []) := by
  obtain ⟨h1, h2, h3, h4, h5, h6, h7, h8⟩ := canon_not_pseudo m hm
  simp [expandPseudo, h1, h2, h3, h4, h5, h6, h7, h8]

/-- On canonical-only input, pass 1 adds no log entries and emits exactly
one pending instruction per instruction line. -/
theorem pass1_canon :
    ∀ (ls : List (Nat × List Char)) (st st' : P1State),
      (∀ q ∈ ls.filter isInstrLine,
        firstTok (stripLine q.2) ∈ canonicalMnemonics) →
      pass1 ls st = .ok st' →
      st'.log = st.log ∧
        st'.pend.length = st.pend.length + (ls.filter isInstrLine).length := by
  intro ls
  induction ls with
  | nil =>
    intro st st' hc h
    rw [pass1] at h
    injection h with h1
    subst h1
    simp
  | cons hd tl ih =>
    obtain ⟨n, raw⟩ := hd
    intro st st' hc h
    rw [pass1] at h
    by_cases hb1 : (stripLine raw).isEmpty = true
    · rw [if_pos hb1] at h
      have hfilter : ((n, raw) :: tl).filter isInstrLine =
          tl.filter isInstrLine := by
        simp [List.filter, isInstrLine, hb1]
      rw [hfilter] at hc ⊢
      exact ih st st' hc h
    · rw [if_neg hb1] at h
      by_cases hb2 : isLabelLine (stripLine raw) = true
      · rw [if_pos hb2] at h
        have hfilter : ((n, raw) :: tl).filter isInstrLine =
            tl.filter isInstrLine := by
          simp [List.filter, isInstrLine, hb1, hb2]
        rw [hfilter] at hc ⊢
        cases hcs : lookupC st.syms (trimC (stripLine raw).dropLast) with
        | some v =>
          rw [hcs] at h
          simp [errE] at h
        | none =>
          rw [hcs] at h
          exact ih
            { st with syms := st.syms ++ [(trimC (stripLine raw).dropLast, st.addr)] }
            st' hc h
      · rw [if_neg hb2] at h
        have hinstr : isInstrLine (n, raw) = true := by
          simp [isInstrLine, hb1, hb2]
        have hfilter : ((n, raw) :: tl).filter isInstrLine =
            (n, raw) :: tl.filter isInstrLine := by
          simp [List.filter, hinstr]
        rw [hfilter] at hc
        have hcanon : firstTok (stripLine raw) ∈ canonicalMnemonics :=
          hc (n, raw) (List.mem_cons_self _ _)
        have htlc : ∀ q ∈ tl.filter isInstrLine,
            firstTok (stripLine q.2) ∈ canonicalMnemonics :=
          fun q hq => hc q (List.mem_cons_of_mem _ hq)
        rw [expand_canon hcanon n st.addr
          (splitOps (restTok (stripLine raw)))] at h
        obtain ⟨hl, hp⟩ := ih _ st' htlc h
        constructor
        · rw [hl]
          simp
        · rw [hfilter, hp]
          simp
          omega

/-! ## Claim theorems -/

/-- C1: For every program and after any number of `step()` calls on a core,
`regs[0] == 0`: a write to register index 0 during instruction execution is
discarded, so register 0 never observably changes from 0. -/
theorem reg0_always_zero (ws : List Nat) (n : Nat) :
    (stepN n (RiscVCore.load_program initCore ws)).regs.getD 0 0 = 0 := by
  rw [stepN_reg0]
  rfl

/-- C2: `run()` always halts within the 5000-cycle ceiling: the cycle
counter never exceeds 5000 at any point of the run loop, and from any core
within budget (in particular a freshly loaded infinite-loop program, whose
cycle counter is 0) `run()` stops with the cycle counter exactly at the
5000 ceiling. -/
theorem run_cycle_ceiling (c : RiscVCore) (h : c.cycles ≤ 5000) :
    c.run.cycles = 5000 ∧ ∀ n, (runFuel n c).cycles ≤ 5000 := by
  constructor
  · exact runFuel_exact _ c (by unfold CEILING; omega)
  · intro n
    exact runFuel_le n c h

/-- The branch-to-self program `jal x0, 0` (word 111 = 0x6f): an infinite
loop. -/
def selfLoopProgram : List Nat := [111]

/-- Witness for C2: on the loaded branch-to-self program, `run()` halts with
cycle count exactly 5000. -/
theorem run_cycle_ceiling_witness :
    (RiscVCore.load_program initCore selfLoopProgram).cycles ≤ 5000 ∧
    (RiscVCore.load_program initCore selfLoopProgram).run.cycles = 5000 := by
  have h : (RiscVCore.load_program initCore selfLoopProgram).cycles ≤ 5000 :=
    Nat.zero_le 5000
  exact ⟨h, (run_cycle_ceiling _ h).1⟩

/-- C3: a fetched word that matches no known opcode pattern does not raise:
the step is a no-op that still advances PC by 4 and increments the cycle
counter by 1 (register file and memory untouched). -/
theorem decode_failure_is_noop (c : RiscVCore) (h1 : c.cycles < CEILING)
    (h2 : decode (fetchWord c) = none) :
    c.step = { c with pc := c.pc + 4, cycles := c.cycles + 1 } := by
  simp [RiscVCore.step, h1, h2]

/-- Witness for C3: the fresh core fetches the word 0, which decodes to no
instruction; the step advances PC to 4, the cycle counter to 1. -/
theorem decode_failure_is_noop_witness :
    initCore.cycles < CEILING ∧ decode (fetchWord initCore) = none ∧
    initCore.step = { initCore with pc := 4, cycles := 1 } := by
  refine ⟨by decide, by decide, ?_⟩
  exact decode_failure_is_noop initCore (by decide) (by decide)

/-- C4: after `reset()` on any core state, every one of the 32 registers is
0, every byte of the memory image is 0, PC is 0 and the cycle counter is 0. -/
theorem reset_zeroes_state (c : RiscVCore) (i a : Nat) :
    c.reset.regs.length = 32 ∧ c.reset.regs.getD i 0 = 0 ∧
    c.reset.mem.length = MEMSIZE ∧ c.reset.mem.getD a 0 = 0 ∧
    c.reset.pc = 0 ∧ c.reset.cycles = 0 := by
  refine ⟨by simp [RiscVCore.reset, initCore], ?_, by simp [RiscVCore.reset, initCore], ?_, rfl, rfl⟩
  · exact getD_replicate 32 i 0
  · exact getD_replicate MEMSIZE a 0

/-- C5: after `load_program(ws)` the memory bytes at addresses
`[4*i, 4*i+4)` hold `ws[i]` in little-endian order starting at address 0,
and PC and cycle counter are 0. -/
theorem load_program_little_endian (c : RiscVCore) (ws : List Nat)
    (i j : Nat) (hi : i < ws.length) (hj : j < 4) :
    (c.load_program ws).mem.getD (4 * i + j) 0 = ws.getD i 0 / 256 ^ j % 256 ∧
    (c.load_program ws).pc = 0 ∧ (c.load_program ws).cycles = 0 := by
  exact ⟨flat_getD ws _ i j hi hj, rfl, rfl⟩

/-- Witness for C5: loading the single word 10486419 (`addi x5, x0, 10`)
places its low byte 147 at address 0 with PC and cycle counter 0. -/
theorem load_program_little_endian_witness :
    (0 : Nat) < [10486419].length ∧ (0 : Nat) < 4 ∧
    ((initCore.load_program [10486419]).mem.getD (4 * 0 + 0) 0 =
        [10486419].getD 0 0 / 256 ^ 0 % 256 ∧
      (initCore.load_program [10486419]).pc = 0 ∧
      (initCore.load_program [10486419]).cycles = 0) := by
  exact ⟨by decide, by decide,
    load_program_little_endian initCore [10486419] 0 0 (by decide) (by decide)⟩

/-- C8: `disassemble(word, address)` is total (a plain function over all
32-bit words), returns the empty placeholder string for the word 0, and
renders any word matching no opcode pattern in a clearly-marked unknown
form. -/
theorem disassemble_total_unknown (w a : Nat) :
    (w % 4294967296 = 0 → disassemble w a = "") ∧
    (decode w = none → w % 4294967296 ≠ 0 →
      disassemble w a = "unknown (" ++ toString (w % 4294967296) ++ ")") := by
  constructor
  · intro h
    unfold disassemble
    rw [if_pos h]
  · intro hd hne
    simp [disassemble, hd, hne]

/-- Witness for C8: the word 0 disassembles to the empty string and the
undecodable word 7 renders in the marked unknown form. -/
theorem disassemble_total_unknown_witness :
    disassemble 0 0 = "" ∧
    disassemble 7 0 = "unknown (" ++ toString (7 % 4294967296) ++ ")" := by
  exact ⟨(disassemble_total_unknown 0 0).1 (by decide),
    (disassemble_total_unknown 7 0).2 (by decide) (by decide)⟩

/-- Scenario A source text. -/
def scenarioASource : String := "addi x5, x0, 10\naddi x6, x5, 5"

/-- The core holding the assembled and loaded scenario A program. -/
def scenarioACore : RiscVCore :=
  match parse_assembly scenarioASource with
  | .ok (p, _) => RiscVCore.load_program initCore p.machine_code
  | .error _ => initCore

/-- Whether an assembler result is a success. -/
def isOkResult (r : Except AsmError (AsmProgram × List String)) : Bool :=
  match r with
  | .ok _ => true
  | .error _ => false

/-- C9: assembling `addi x5, x0, 10` then `addi x6, x5, 5` into a fresh
core and stepping twice yields `regs[5] == 10`, `regs[6] == 15`, `pc == 8`. -/
theorem scenarioA_two_steps :
    isOkResult (parse_assembly scenarioASource) = true ∧
    (stepN 2 scenarioACore).regs.getD 5 0 = 10 ∧
    (stepN 2 scenarioACore).regs.getD 6 0 = 15 ∧
    (stepN 2 scenarioACore).pc = 8 := by
  decide

/-- C6: whenever assembly fails, `parse_assembly` surfaces a single
structured error carrying a 1-based line number and a nonempty message, and
returns no partial program (no success value exists alongside the error). -/
theorem assembler_error_structured (src : String) (e : AsmError)
    (h : parse_assembly src = .error e) :
    1 ≤ e.line ∧ 0 < e.msg.length ∧ ∀ r, parse_assembly src ≠ .ok r := by
  have h3 : ∀ r, parse_assembly src ≠ .ok r := by
    intro r hr
    rw [h] at hr
    exact Except.noConfusion hr
  have hlines : ∀ q ∈ srcLines src, 1 ≤ q.1 :=
    fun q hq => numberFrom_ge _ 1 q hq
  unfold parse_assembly at h
  split at h
  next e0 heq =>
    injection h with h1
    subst h1
    obtain ⟨ha, hb⟩ := pass1_err _ _ _ hlines heq
    exact ⟨ha, hb, h3⟩
  next st heq =>
    split at h
    next e0 heq2 =>
      injection h with h1
      subst h1
      obtain ⟨x, hx, hfx⟩ := mapME_err heq2
      obtain ⟨hl, hm⟩ := encodeInstr_err hfx
      have hx1 : 1 ≤ x.line := pass1_pend _ _ _ hlines (by simp) heq x hx
      exact ⟨by omega, hm, h3⟩
    next code heq2 => exact Except.noConfusion h

/-- Witness for C6: the duplicate-label program `x:\nx:` fails with the
structured error at line 2. -/
theorem assembler_error_structured_witness :
    1 ≤ (2 : Nat) ∧ 0 < ("Duplicate label" : String).length ∧
      ∀ r, parse_assembly "x:\nx:" ≠ .ok r := by
  exact assembler_error_structured "x:\nx:" ⟨2, "Duplicate label"⟩ (by rfl)

/-- C7: a program text whose instruction lines all use canonical (non-pseudo)
mnemonics assembles, when it succeeds, to an empty expansion log and a
machine-code sequence with exactly one word per instruction line. -/
theorem canonical_no_expansion (src : String) (prog : AsmProgram)
    (log : List String)
    (hcanon : ∀ q ∈ instrLines src, firstTok (stripLine q.2) ∈ canonicalMnemonics)
    (h : parse_assembly src = .ok (prog, log)) :
    log = [] ∧ prog.machine_code.length = (instrLines src).length := by
  unfold parse_assembly at h
  split at h
  next e0 heq => exact Except.noConfusion h
  next st heq =>
    split at h
    next e0 heq2 => exact Except.noConfusion h
    next code heq2 =>
      injection h with h1
      cases h1
      obtain ⟨hl, hp⟩ := pass1_canon (srcLines src) ⟨0, [], [], []⟩ st hcanon heq
      refine ⟨hl, ?_⟩
      rw [mapME_length heq2, hp]
      simp [instrLines]

/-- Witness for C7: scenario A consists of two canonical `addi` lines and
assembles to two words with an empty log. -/
theorem canonical_no_expansion_witness :
    ([] : List String) = [] ∧
      (AsmProgram.mk [10486419, 5407507] []).machine_code.length =
        (instrLines scenarioASource).length := by
  exact canonical_no_expansion scenarioASource ⟨[10486419, 5407507], []⟩ []
    (by decide) (by rfl)

/-- C10: after `assemble_and_load` the session's core is freshly assigned in
both outcomes — it depends only on the assembly text (never on the previous
core), is `none` on any assembly failure, and on success is a newly
constructed core loaded with the new program's machine code. -/
theorem assemble_and_load_fresh_core (s1 s2 : Session)
    (hsame : s1.assembly_code = s2.assembly_code) :
    (assemble_and_load s1).core = (assemble_and_load s2).core ∧
    (∀ e, parse_assembly s1.assembly_code = .error e →
      (assemble_and_load s1).core = none) ∧
    (∀ p log, parse_assembly s1.assembly_code = .ok (p, log) →
      (assemble_and_load s1).core =
        some (RiscVCore.load_program initCore p.machine_code)) := by
  refine ⟨?_, ?_, ?_⟩
  · cases hp : parse_assembly s2.assembly_code with
    | ok v =>
      obtain ⟨p, log⟩ := v
      simp [assemble_and_load, hsame, hp]
    | error e => simp [assemble_and_load, hsame, hp]
  · intro e he
    simp [assemble_and_load, he]
  · intro p log hp
    simp [assemble_and_load, hp]

/-- A session holding a stale core from a previous successful assembly. -/
def sessionWithStaleCore : Session := ⟨some initCore, none, scenarioASource⟩

/-- A session with no core and the same text. -/
def sessionWithoutCore : Session := ⟨none, none, scenarioASource⟩

/-- A session whose text fails to assemble. -/
def sessionWithBadText : Session := ⟨some initCore, none, "x:\nx:"⟩

/-- Witness for C10: two sessions with the same text but different previous
cores end with the same core, and a failing text forces the core to `none`
even when a previous core existed. -/
theorem assemble_and_load_fresh_core_witness :
    (assemble_and_load sessionWithStaleCore).core =
      (assemble_and_load sessionWithoutCore).core ∧
    (assemble_and_load sessionWithBadText).core = none := by
  refine ⟨(assemble_and_load_fresh_core sessionWithStaleCore sessionWithoutCore rfl).1, ?_⟩
  exact (assemble_and_load_fresh_core sessionWithBadText sessionWithBadText rfl).2.1
    ⟨2, "Duplicate label"⟩ (by rfl)

end RiscSim
